import Mathlib

/-!
Verification development for the per-site forecasting pipeline of
forecast_pipeline_drive.py (function run_pipeline, lines 117-161).

The core under study, per site:
sort rows by week label and assign an ordinal index (np.arange), fit an
ordinary-least-squares trend of demand on the index (statsmodels OLS, whose
default fit method computes the Moore-Penrose pseudoinverse solution), detrend,
one-hot-encode the calendar attributes (pd.get_dummies with drop_first=True:
non-object columns pass through unchanged, each object column contributes one
0/1 column per sorted observed level except the first), prepend an intercept
with sm.add_constant (default has_constant=skip: if some column is constant
and nonzero, the matrix is returned unchanged), fit a second OLS of the
residual on that design matrix, recombine the predictions, and compute
metrics with sklearn (r2_score, mean_absolute_error,
mean_absolute_percentage_error).  Coefficients are collected in a long table
and pivoted to a wide table (pandas pivot, which raises on duplicate
(index, column) pairs and leaves missing cells as NaN).

All numbers are modelled as exact rationals.  Values that the code represents
as IEEE NaN (np.nan literals, the NaN returned by r2_score on fewer than two
samples, missing cells of the pivot) are modelled as none in an Option.
-/

/-! ## String order (code points, as Python compares strings) -/

/-- Lexicographic order on character lists by code point, the order Python and
pandas use when sorting strings. -/
def charListLe : List Char → List Char → Bool
  | [], _ => true
  | _ :: _, [] => false
  | a :: as, b :: bs =>
    if a < b then true
    else if b < a then false
    else charListLe as bs

/-- String comparison by code points, as used for sorting week labels,
site identifiers, dummy levels and pivot columns. -/
def strLe (a b : String) : Bool := charListLe a.data b.data

/-- Boolean test that the string s starts with the string p, modelling
pandas Series.str.startswith. -/
def charListStarts : List Char → List Char → Bool
  | [], _ => true
  | _ :: _, [] => false
  | a :: as, b :: bs => if a = b then charListStarts as bs else false

/-- The mask grp.ID_SEM.str.startswith applied to one label. -/
def strStarts (s p : String) : Bool := charListStarts p.data s.data

/-! ## Sorting and deduplication (DataFrame.sort_values, sorted unique keys) -/

/-- Insert an element into a list before the first element that does not
compare below it (stable insertion). -/
def insertLe {α : Type} (le : α → α → Bool) (a : α) : List α → List α
  | [] => [a]
  | b :: l => if le a b then a :: b :: l else b :: insertLe le a l

/-- Stable insertion sort; models sorting a DataFrame by one key column and
the sorted iteration order of groupby keys, dummy levels and pivot columns. -/
def sortLe {α : Type} (le : α → α → Bool) : List α → List α
  | [] => []
  | a :: l => insertLe le a (sortLe le l)

/-- Unique values of a list of strings (order irrelevant: every use is
followed by sorting). -/
def dedupStr : List String → List String
  | [] => []
  | a :: l => if l.contains a then dedupStr l else a :: dedupStr l

/-! ## Exact linear algebra: the least-squares engine.

statsmodels OLS(y, X).fit() with its default method computes
params = pinv(X) @ y, the minimum-norm least-squares solution.  Over exact
rationals this solution is the minimum-norm solution of the normal equations
(X^T X) b = X^T y, computed here by Gauss-Jordan elimination: take the
particular solution with free variables zero, and subtract its orthogonal
projection onto the null space of X^T X. -/

/-- Dot product of two coefficient vectors. -/
def dot (a b : List ℚ) : ℚ := (List.zipWith (· * ·) a b).sum

/-- Matrix times vector, rows as lists. -/
def matVec (M : List (List ℚ)) (v : List ℚ) : List ℚ := M.map (fun row => dot row v)

/-- Column j of a row-major matrix. -/
def colOf (X : List (List ℚ)) (j : Nat) : List ℚ := X.map (fun r => r.getD j 0)

/-- Subtract a multiple of the pivot row so that entry j becomes zero. -/
def elimWith (piv : List ℚ) (j : Nat) (row : List ℚ) : List ℚ :=
  List.zipWith (fun a b => a - row.getD j 0 * b) row piv

/-- Split a list of rows around the first row whose entry in column j is
nonzero. -/
def findPivotRow (j : Nat) : List (List ℚ) → Option (List (List ℚ) × List ℚ × List (List ℚ))
  | [] => none
  | r :: t =>
    if r.getD j 0 ≠ 0 then some ([], r, t)
    else
      match findPivotRow j t with
      | some (pre, x, post) => some (r :: pre, x, post)
      | none => none

/-- Gauss-Jordan elimination sweep over the columns; processed pivot rows are
accumulated in pivot-column order. -/
def rrefGo : Nat → Nat → List (List ℚ) → List (List ℚ) → List (List ℚ)
  | 0, _, done, rest => done ++ rest
  | fuel + 1, j, done, rest =>
    match findPivotRow j rest with
    | none => rrefGo fuel (j + 1) done rest
    | some (pre, r, post) =>
      let rn := r.map (· / r.getD j 0)
      rrefGo fuel (j + 1) (done.map (elimWith rn j) ++ [rn]) ((pre ++ post).map (elimWith rn j))

/-- Reduced row echelon form of a matrix with the given number of columns. -/
def rref (numCols : Nat) (A : List (List ℚ)) : List (List ℚ) := rrefGo numCols 0 [] A

/-- Index of the first nonzero entry of a row, or the row length if none. -/
def firstNonzero : List ℚ → Nat
  | [] => 0
  | a :: t => if a ≠ 0 then 0 else firstNonzero t + 1

/-- Pivot rows of an echelon form, keyed by pivot column, keeping only pivots
among the first k (variable) columns. -/
def pivotRowsOf (k : Nat) (R : List (List ℚ)) : List (Nat × List ℚ) :=
  R.filterMap (fun row => if firstNonzero row < k then some (firstNonzero row, row) else none)

/-- Particular solution of the echelonized augmented system: pivot variables
take the right-hand side value, free variables are zero. -/
def particularSol (k : Nat) (pr : List (Nat × List ℚ)) : List ℚ :=
  (List.range k).map (fun j =>
    match pr.find? (fun q => q.1 == j) with
    | some q => q.2.getD k 0
    | none => 0)

/-- Basis of the null space of the echelonized matrix: one vector per free
column. -/
def nullBasisOf (k : Nat) (pr : List (Nat × List ℚ)) : List (List ℚ) :=
  ((List.range k).filter (fun j => pr.all (fun q => q.1 != j))).map
    (fun f => (List.range k).map (fun j =>
      if j == f then 1
      else
        match pr.find? (fun q => q.1 == j) with
        | some q => -(q.2.getD f 0)
        | none => 0))

/-- Identity matrix of size d. -/
def idMat (d : Nat) : List (List ℚ) :=
  (List.range d).map (fun i => (List.range d).map (fun j => if i == j then (1 : ℚ) else 0))

/-- Inverse of an invertible d by d matrix by Gauss-Jordan on the matrix
augmented with the identity. -/
def matInv (d : Nat) (M : List (List ℚ)) : List (List ℚ) :=
  (rref (2 * d) (List.zipWith (· ++ ·) M (idMat d))).map (fun row => row.drop d)

/-- Minimum-norm solution of the consistent system G x = c in k unknowns:
particular solution minus its orthogonal projection onto the null space. -/
def minNormSolve (k : Nat) (G : List (List ℚ)) (c : List ℚ) : List ℚ :=
  let R := rref (k + 1) (List.zipWith (fun row ci => row ++ [ci]) G c)
  let pr := pivotRowsOf k R
  let x0 := particularSol k pr
  let B := nullBasisOf k pr
  if B.isEmpty then x0
  else
    let z := matVec (matInv B.length (B.map (fun bi => B.map (dot bi)))) (matVec B x0)
    List.zipWith (· - ·) x0 ((List.range k).map (fun j => dot (B.map (fun b => b.getD j 0)) z))

/-- Least-squares coefficients of y on the n by k design matrix X: the
minimum-norm solution of the normal equations, which is pinv(X) @ y, the
value statsmodels OLS(y, X).fit().params computes. -/
def lstsq (k : Nat) (X : List (List ℚ)) (y : List ℚ) : List ℚ :=
  minNormSolve k
    ((List.range k).map (fun i => (List.range k).map (fun j => dot (colOf X i) (colOf X j))))
    ((List.range k).map (fun i => dot (colOf X i) y))

/-! ## Data model

One row of the merged dataset df built by build_drive_dataset: the observed
demand of a site in a week joined with the calendar attributes of that week.
The regression list vars_cal is TYPE_SEM_ZONE, SEM_FERIE, SEM_PRE_FERIE,
SEM_POST_FERIE, TYPE_SEM_FERIE, TYPE_SEM_PAYE_FCT; three of these are 0/1
integer columns, three are string categories.  (The column ZONE_SCOLAIRE is
computed by build_drive_dataset but never used by the regression loop.) -/

structure Row where
  site : String
  ID_SEM : String
  commandes : ℚ
  TYPE_SEM_ZONE : String
  SEM_FERIE : ℚ
  SEM_PRE_FERIE : ℚ
  SEM_POST_FERIE : ℚ
  TYPE_SEM_FERIE : String
  TYPE_SEM_PAYE_FCT : String
deriving DecidableEq

/-- Comparison of rows by week label, the key of the sort by the column ID_SEM. -/
def rowLe (a b : Row) : Bool := strLe a.ID_SEM b.ID_SEM

/-- The rows of one site sorted ascending by week label, as produced by
sort_values on ID_SEM followed by reset_index. -/
def sortSite (g : List Row) : List Row := sortLe rowLe g

/-- The ordinal time index column t, np.arange of the group length. -/
def tColumn (g : List Row) : List Nat := List.range g.length

/-- The trend design matrix, add_constant applied to t: t is either the single
value 0 (then constant zero, so the constant is still added) or non-constant,
so add_constant always prepends the intercept here. -/
def trendX (n : Nat) : List (List ℚ) := (List.range n).map (fun i : ℕ => [(1 : ℚ), (i : ℚ)])

/-- Trend coefficients: sm.OLS(grp.commandes, sm.add_constant(grp.t)).fit().params. -/
def trendParams (g : List Row) : List ℚ :=
  lstsq 2 (trendX g.length) (g.map (·.commandes))

/-- Trend predictions of the fitted trend model at the matrix built from t. -/
def trendPredList (g : List Row) : List ℚ := matVec (trendX g.length) (trendParams g)

/-- Detrended residual y_det = grp.commandes - det.predict(...). -/
def yDet (g : List Row) : List ℚ :=
  List.zipWith (· - ·) (g.map (·.commandes)) (trendPredList g)

/-! ## CategoricalEncoder: pd.get_dummies(grp[vars_cal], drop_first=True, dtype=float)
followed by sm.add_constant(X). -/

/-- Sorted distinct observed levels of one string attribute within one site
group (the categories pandas assigns to an object column). -/
def levelsOf (g : List Row) (f : Row → String) : List String :=
  sortLe strLe (dedupStr (g.map f))

/-- Dummy columns of one object column: one 0/1 column per observed level
except the first (drop_first=True), each named by the attribute name, an underscore and the level, in level order. -/
def dummiesFor (g : List Row) (name : String) (f : Row → String) : List (String × List ℚ) :=
  (levelsOf g f).tail.map (fun lv =>
    (name ++ "_" ++ lv, g.map (fun r => if f r = lv then (1 : ℚ) else 0)))

/-- pd.get_dummies on grp[vars_cal]: the non-object columns pass through
first in frame order, then the dummy blocks of the object columns in frame
order. -/
def getDummies (g : List Row) : List (String × List ℚ) :=
  [("SEM_FERIE", g.map (·.SEM_FERIE)),
   ("SEM_PRE_FERIE", g.map (·.SEM_PRE_FERIE)),
   ("SEM_POST_FERIE", g.map (·.SEM_POST_FERIE))]
  ++ dummiesFor g "TYPE_SEM_ZONE" (·.TYPE_SEM_ZONE)
  ++ dummiesFor g "TYPE_SEM_FERIE" (·.TYPE_SEM_FERIE)
  ++ dummiesFor g "TYPE_SEM_PAYE_FCT" (·.TYPE_SEM_PAYE_FCT)

/-- A column that is constant with a nonzero value, the condition
sm.add_constant checks before deciding whether to add an intercept
(ptp equal to zero and first entry nonzero). -/
def allEqQ (a : ℚ) : List ℚ → Bool
  | [] => true
  | x :: t => if x = a then allEqQ a t else false

/-- Boolean test of the add_constant skip condition on one column. -/
def isNonzeroConst : List ℚ → Bool
  | [] => false
  | a :: t => if a = 0 then false else allEqQ a t

/-- Whether some existing column is constant and nonzero. -/
def hasConstCol : List (String × List ℚ) → Bool
  | [] => false
  | c :: t => if isNonzeroConst c.2 then true else hasConstCol t

/-- sm.add_constant(X) with its defaults prepend=True, has_constant=skip:
if some column is already constant and nonzero the matrix is returned
unchanged, otherwise a column of ones named const is prepended. -/
def addConstant (n : Nat) (cols : List (String × List ℚ)) : List (String × List ℚ) :=
  if hasConstCol cols then cols else ("const", List.replicate n 1) :: cols

/-- The named columns of the effect design matrix X handed to the second OLS. -/
def designCols (g : List Row) : List (String × List ℚ) := addConstant g.length (getDummies g)

/-- Row-major form of a named-column matrix (n rows). -/
def rowsOfCols (cols : List (String × List ℚ)) (n : Nat) : List (List ℚ) :=
  (List.range n).map (fun i => cols.map (fun c => c.2.getD i 0))

/-- Effect coefficients: sm.OLS(y_det, X).fit().params. -/
def effectParams (g : List Row) : List ℚ :=
  lstsq (designCols g).length (rowsOfCols (designCols g) g.length) (yDet g)

/-- Effect predictions mod.predict(X). -/
def effectPredList (g : List Row) : List ℚ :=
  matVec (rowsOfCols (designCols g) g.length) (effectParams g)

/-- Combined forecast y_pred = det.predict(...) + mod.predict(X). -/
def yPredList (g : List Row) : List ℚ :=
  List.zipWith (· + ·) (trendPredList g) (effectPredList g)

/-! ## MetricEvaluator: the sklearn metric functions.

Values the code represents as NaN are modelled as none. -/

/-- Machine epsilon of float64, np.finfo(np.float64).eps, which sklearn uses
as the denominator floor in mean_absolute_percentage_error. -/
def npEps : ℚ := 1 / 2 ^ 52

/-- sklearn r2_score: NaN for fewer than two samples; with a zero total sum
of squares the nonfinite score is forced to 1 for a perfect fit and 0
otherwise (force_finite=True is the default); else the usual formula. -/
def r2_score (y_true y_pred : List ℚ) : Option ℚ :=
  if y_pred.length < 2 then none
  else
    let ybar := y_true.sum / (y_true.length : ℚ)
    let ssRes := (List.zipWith (fun a b => (a - b) ^ 2) y_true y_pred).sum
    let ssTot := (y_true.map (fun a => (a - ybar) ^ 2)).sum
    if ssTot = 0 then (if ssRes = 0 then some 1 else some 0)
    else some (1 - ssRes / ssTot)

/-- sklearn mean_absolute_error: the mean absolute residual (an empty input
raises in sklearn; the pipeline only calls it on nonempty subsets). -/
def mean_absolute_error (y_true y_pred : List ℚ) : Option ℚ :=
  if y_true.length = 0 then none
  else some ((List.zipWith (fun a b => |a - b|) y_true y_pred).sum / (y_true.length : ℚ))

/-- sklearn mean_absolute_percentage_error: the mean of
abs(residual) / max(abs(true), eps); a true value of zero is not skipped and
does not raise, its denominator is floored at machine epsilon. -/
def mean_absolute_percentage_error (y_true y_pred : List ℚ) : Option ℚ :=
  if y_true.length = 0 then none
  else some ((List.zipWith (fun a b => |a - b| / max |a| npEps) y_true y_pred).sum
    / (y_true.length : ℚ))

/-- One row of the metrics table. -/
structure MetricsRow where
  site : String
  r2_insample : Option ℚ
  mae_insample : Option ℚ
  mape_insample : Option ℚ
  r2_2024 : Option ℚ
  mae_2024 : Option ℚ
  mape_2024 : Option ℚ
deriving DecidableEq

/-- The metrics dict appended for one site: in-sample metrics over the whole
series, and the three 2024 metrics over the rows whose label starts with
2024-, which are np.nan when that subset is empty. -/
def siteMetrics (s : String) (g : List Row) : MetricsRow :=
  let y_true := g.map (·.commandes)
  let y_pred := yPredList g
  let sel := (g.zip y_pred).filter (fun p => strStarts p.1.ID_SEM "2024-")
  let yt24 := sel.map (fun p => p.1.commandes)
  let yp24 := sel.map (fun p => p.2)
  { site := s
    r2_insample := r2_score y_true y_pred
    mae_insample := mean_absolute_error y_true y_pred
    mape_insample := mean_absolute_percentage_error y_true y_pred
    r2_2024 := if yt24.length > 0 then r2_score yt24 yp24 else none
    mae_2024 := if yt24.length > 0 then mean_absolute_error yt24 yp24 else none
    mape_2024 := if yt24.length > 0 then mean_absolute_percentage_error yt24 yp24 else none }

/-! ## CoefficientExporter -/

/-- One row of the long coefficient table with columns site, variable, coef;
varName stands for the column named variable. -/
structure CoefRow where
  site : String
  varName : String
  coef : ℚ
deriving DecidableEq

/-- The coefficient rows of one site: mod.params.reset_index() pairs each
design-matrix column name with its fitted coefficient, in column order. -/
def siteCoefs (s : String) (g : List Row) : List CoefRow :=
  (List.zip ((designCols g).map (·.1)) (effectParams g)).map
    (fun p => { site := s, varName := p.1, coef := p.2 })

/-! ## The pipeline over all sites -/

/-- The sorted distinct site keys of the groupby on the site column. -/
def siteList (df : List Row) : List String := sortLe strLe (dedupStr (df.map (·.site)))

/-- The rows of one site in original order (a groupby group). -/
def groupOf (df : List Row) (s : String) : List Row := df.filter (fun r => r.site == s)

/-- One group sorted by week label, the series the per-site pipeline runs on. -/
def sortedGroup (df : List Row) (s : String) : List Row := sortSite (groupOf df s)

/-- The metrics table: one row per site, sites in groupby (sorted) order. -/
def metricsTable (df : List Row) : List MetricsRow :=
  (siteList df).map (fun s => siteMetrics s (sortedGroup df s))

/-- The long coefficient table df_coefs: the coefficient rows of all sites
concatenated in site order. -/
def longTable (df : List Row) : List CoefRow :=
  (siteList df).flatMap (fun s => siteCoefs s (sortedGroup df s))

/-- The wide coefficient table: one row per site, one column per variable. -/
structure WideTable where
  cols : List String
  rows : List (String × List (Option ℚ))
deriving DecidableEq

/-- One cell of the wide table: the coefficient of the (site, variable) pair,
NaN (none) when that pair has no row in the long table. -/
def wideCell (L : List CoefRow) (s v : String) : Option ℚ :=
  (L.find? (fun r => r.site == s && r.varName == v)).map (·.coef)

/-- pandas pivot of the long table with index site, columns variable, values coef:
raises ValueError when some (site, variable) pair is duplicated; otherwise
the sorted distinct variables become columns, the sorted distinct sites
become rows, and a cell is the coefficient of its (site, variable) pair,
NaN (none) when that pair has no row in the long table. -/
def pivotWide (L : List CoefRow) : Except String WideTable :=
  if (L.map (fun r => (r.site, r.varName))).Nodup then
    let cols := sortLe strLe (dedupStr (L.map (·.varName)))
    Except.ok
      { cols := cols
        rows := (sortLe strLe (dedupStr (L.map (·.site)))).map (fun s =>
          (s, cols.map (fun v => wideCell L s v))) }
  else Except.error "Index contains duplicate entries, cannot reshape"

/-- The wide table of the pipeline. -/
def wideTable (df : List Row) : Except String WideTable := pivotWide (longTable df)

/-- Lookup of the metrics row of one site. -/
def metricsFor (df : List Row) (s : String) : Option MetricsRow :=
  (metricsTable df).find? (fun m => m.site == s)

/-- The long-table rows of one site. -/
def coefsFor (df : List Row) (s : String) : List CoefRow :=
  (longTable df).filter (fun r => r.site == s)

/-! ## Concrete datasets used to instantiate the claims.

Each list is a merged dataset df as built by build_drive_dataset: fields are
site, ID_SEM, commandes, TYPE_SEM_ZONE, SEM_FERIE, SEM_PRE_FERIE,
SEM_POST_FERIE, TYPE_SEM_FERIE, TYPE_SEM_PAYE_FCT. -/

/-- One site, two weeks, no calendar variation: the effect design matrix has
four columns (const plus the three pass-through flag columns) against two
observations, a rank-deficient fit. -/
def dfC1 : List Row :=
  [⟨"S", "2023-01", 10, "A", 0, 0, 0, "N", "S_NORMALE"⟩,
   ⟨"S", "2023-02", 20, "A", 0, 0, 0, "N", "S_NORMALE"⟩]

/-- One site whose SEM_PRE_FERIE flag is constant one over its history while
SEM_FERIE varies. -/
def dfC2 : List Row :=
  [⟨"S", "2023-01", 10, "A", 0, 1, 0, "N", "S_NORMALE"⟩,
   ⟨"S", "2023-02", 20, "A", 1, 1, 0, "N", "S_NORMALE"⟩]

/-- One site with a constant demand series (zero variance). -/
def dfC3 : List Row :=
  [⟨"S", "2023-01", 5, "A", 0, 0, 0, "N", "S_NORMALE"⟩,
   ⟨"S", "2023-02", 5, "A", 0, 0, 0, "N", "S_NORMALE"⟩]

/-- One site with a true value of exactly zero and an imperfect fit: demands
0, 3, 0 give the constant prediction 1 everywhere. -/
def dfC4 : List Row :=
  [⟨"S", "2023-01", 0, "A", 0, 0, 0, "N", "S_NORMALE"⟩,
   ⟨"S", "2023-02", 3, "A", 0, 0, 0, "N", "S_NORMALE"⟩,
   ⟨"S", "2023-03", 0, "A", 0, 0, 0, "N", "S_NORMALE"⟩]

/-- Two sites: site A observes the holiday-type levels N and X, so its design
matrix has the dummy column TYPE_SEM_FERIE_X; site B observes only N and
lacks that column. -/
def dfC10 : List Row :=
  [⟨"A", "2023-01", 10, "A", 0, 0, 0, "N", "S_NORMALE"⟩,
   ⟨"A", "2023-02", 20, "A", 0, 0, 0, "X", "S_NORMALE"⟩,
   ⟨"B", "2023-01", 5, "A", 0, 0, 0, "N", "S_NORMALE"⟩,
   ⟨"B", "2023-02", 5, "A", 0, 0, 0, "N", "S_NORMALE"⟩]

/-- The dataset dfC1 with one extra site appended, agreeing with dfC1 on all
rows of site S. -/
def dfC7 : List Row :=
  dfC1 ++ [⟨"T", "2023-01", 7, "A", 0, 0, 0, "N", "S_NORMALE"⟩]

/-! ## Lemmas about sorting and deduplication -/

theorem mem_insertLe {α : Type} (le : α → α → Bool) (a x : α) (l : List α) :
    x ∈ insertLe le a l ↔ x = a ∨ x ∈ l := by
  induction l with
  | nil => simp [insertLe]
  | cons b t ih =>
    by_cases h : le a b = true
    · simp [insertLe, h]
    · simp only [insertLe, if_neg h, List.mem_cons, ih]
      tauto

theorem perm_insertLe {α : Type} (le : α → α → Bool) (a : α) (l : List α) :
    (insertLe le a l).Perm (a :: l) := by
  induction l with
  | nil => simp [insertLe]
  | cons b t ih =>
    by_cases h : le a b = true
    · simp [insertLe, h]
    · simpa [insertLe, h] using (ih.cons b).trans (List.Perm.swap a b t)

theorem perm_sortLe {α : Type} (le : α → α → Bool) (l : List α) :
    (sortLe le l).Perm l := by
  induction l with
  | nil => simp [sortLe]
  | cons a t ih => exact (perm_insertLe le a (sortLe le t)).trans (ih.cons a)

theorem mem_sortLe {α : Type} (le : α → α → Bool) (x : α) (l : List α) :
    x ∈ sortLe le l ↔ x ∈ l := (perm_sortLe le l).mem_iff

theorem nodup_sortLe {α : Type} (le : α → α → Bool) (l : List α) (h : l.Nodup) :
    (sortLe le l).Nodup := ((perm_sortLe le l).nodup_iff).mpr h

theorem length_sortLe {α : Type} (le : α → α → Bool) (l : List α) :
    (sortLe le l).length = l.length := (perm_sortLe le l).length_eq

theorem pairwise_insertLe {α : Type} (le : α → α → Bool)
    (hTotal : ∀ a b, le a b = true ∨ le b a = true)
    (hTrans : ∀ a b c, le a b = true → le b c = true → le a c = true)
    (a : α) (l : List α) (h : l.Pairwise (fun x y => le x y = true)) :
    (insertLe le a l).Pairwise (fun x y => le x y = true) := by
  induction l with
  | nil => simp [insertLe]
  | cons b t ih =>
    rcases List.pairwise_cons.mp h with ⟨hb, ht⟩
    by_cases hab : le a b = true
    · rw [insertLe, if_pos hab]
      refine List.pairwise_cons.mpr ⟨?_, h⟩
      intro x hx
      rcases List.mem_cons.mp hx with rfl | hxt
      · exact hab
      · exact hTrans a b x hab (hb x hxt)
    · rw [insertLe, if_neg hab]
      refine List.pairwise_cons.mpr ⟨?_, ih ht⟩
      intro x hx
      rcases (mem_insertLe le a x t).mp hx with hxa | hxt
      · subst hxa
        rcases hTotal x b with h1 | h1
        · exact absurd h1 hab
        · exact h1
      · exact hb x hxt

theorem pairwise_sortLe {α : Type} (le : α → α → Bool)
    (hTotal : ∀ a b, le a b = true ∨ le b a = true)
    (hTrans : ∀ a b c, le a b = true → le b c = true → le a c = true)
    (l : List α) : (sortLe le l).Pairwise (fun x y => le x y = true) := by
  induction l with
  | nil => simp [sortLe]
  | cons a t ih => exact pairwise_insertLe le hTotal hTrans a (sortLe le t) ih

theorem mem_dedupStr (x : String) (l : List String) : x ∈ dedupStr l ↔ x ∈ l := by
  induction l with
  | nil => simp [dedupStr]
  | cons a t ih =>
    by_cases h : t.contains a = true
    · have ha : a ∈ t := by simpa using h
      rw [dedupStr, if_pos h]
      rw [ih]
      constructor
      · exact fun hx => List.mem_cons.mpr (Or.inr hx)
      · intro hx
        rcases List.mem_cons.mp hx with rfl | hx
        · exact ha
        · exact hx
    · rw [dedupStr, if_neg h]
      simp only [List.mem_cons, ih]

theorem nodup_dedupStr (l : List String) : (dedupStr l).Nodup := by
  induction l with
  | nil => simp [dedupStr]
  | cons a t ih =>
    by_cases h : t.contains a = true
    · rw [dedupStr, if_pos h]
      exact ih
    · have ha : a ∉ t := by simpa using h
      rw [dedupStr, if_neg h]
      exact List.nodup_cons.mpr ⟨fun hx => ha ((mem_dedupStr a t).mp hx), ih⟩

/-! ## The code-point order is total and transitive -/

theorem charListLe_total : ∀ a b : List Char, charListLe a b = true ∨ charListLe b a = true := by
  intro a
  induction a with
  | nil => intro b; left; rfl
  | cons x xs ih =>
    intro b
    cases b with
    | nil => right; rfl
    | cons y ys =>
      rcases lt_trichotomy x y with hxy | hxy | hxy
      · left; rw [charListLe, if_pos hxy]
      · subst hxy
        rcases ih ys with h | h
        · left; rw [charListLe, if_neg (lt_irrefl x), if_neg (lt_irrefl x)]; exact h
        · right; rw [charListLe, if_neg (lt_irrefl x), if_neg (lt_irrefl x)]; exact h
      · right; rw [charListLe, if_pos hxy]

theorem charListLe_trans :
    ∀ a b c : List Char, charListLe a b = true → charListLe b c = true →
      charListLe a c = true := by
  intro a
  induction a with
  | nil => intro b c _ _; rfl
  | cons x xs ih =>
    intro b c hab hbc
    cases b with
    | nil => exact absurd hab (by simp [charListLe])
    | cons y ys =>
      cases c with
      | nil => exact absurd hbc (by simp [charListLe])
      | cons z zs =>
        rcases lt_trichotomy x y with hxy | hxy | hxy
        · rcases lt_trichotomy y z with hyz | hyz | hyz
          · rw [charListLe, if_pos (lt_trans hxy hyz)]
          · subst hyz; rw [charListLe, if_pos hxy]
          · rw [charListLe, if_neg (lt_asymm hyz), if_pos hyz] at hbc
            exact absurd hbc (by simp)
        · subst hxy
          rcases lt_trichotomy x z with hyz | hyz | hyz
          · rw [charListLe, if_pos hyz]
          · subst hyz
            rw [charListLe, if_neg (lt_irrefl x), if_neg (lt_irrefl x)] at hab hbc ⊢
            exact ih ys zs hab hbc
          · rw [charListLe, if_neg (lt_asymm hyz), if_pos hyz] at hbc
            exact absurd hbc (by simp)
        · rw [charListLe, if_neg (lt_asymm hxy), if_pos hxy] at hab
          exact absurd hab (by simp)

theorem strLe_total (a b : String) : strLe a b = true ∨ strLe b a = true :=
  charListLe_total a.data b.data

theorem strLe_trans (a b c : String) (h1 : strLe a b = true) (h2 : strLe b c = true) :
    strLe a c = true := charListLe_trans a.data b.data c.data h1 h2

theorem rowLe_total (a b : Row) : rowLe a b = true ∨ rowLe b a = true :=
  strLe_total a.ID_SEM b.ID_SEM

theorem rowLe_trans (a b c : Row) (h1 : rowLe a b = true) (h2 : rowLe b c = true) :
    rowLe a c = true := strLe_trans a.ID_SEM b.ID_SEM c.ID_SEM h1 h2

/-! ## Length and shape lemmas -/

theorem length_matVec (M : List (List ℚ)) (v : List ℚ) : (matVec M v).length = M.length := by
  simp [matVec]

theorem length_trendX (n : Nat) : (trendX n).length = n := by
  unfold trendX
  exact (List.length_map _ _).trans (List.length_range n)

theorem length_trendPredList (g : List Row) : (trendPredList g).length = g.length := by
  rw [trendPredList, length_matVec, length_trendX]

theorem length_yDet (g : List Row) : (yDet g).length = g.length := by
  simp [yDet, length_trendPredList]

theorem length_particularSol (k : Nat) (pr : List (Nat × List ℚ)) :
    (particularSol k pr).length = k := by simp [particularSol]

theorem length_minNormSolve (k : Nat) (G : List (List ℚ)) (c : List ℚ) :
    (minNormSolve k G c).length = k := by
  rw [minNormSolve]
  by_cases h : (nullBasisOf k (pivotRowsOf k (rref (k + 1)
      (List.zipWith (fun row ci => row ++ [ci]) G c)))).isEmpty = true
  · simp only [h, if_pos]
    exact length_particularSol _ _
  · simp only [h]
    simp [length_particularSol]

theorem length_lstsq (k : Nat) (X : List (List ℚ)) (y : List ℚ) :
    (lstsq k X y).length = k := length_minNormSolve k _ _

theorem length_effectParams (g : List Row) :
    (effectParams g).length = (designCols g).length := length_lstsq _ _ _

theorem length_rowsOfCols (cols : List (String × List ℚ)) (n : Nat) :
    (rowsOfCols cols n).length = n := by simp [rowsOfCols]

theorem length_effectPredList (g : List Row) : (effectPredList g).length = g.length := by
  rw [effectPredList, length_matVec, length_rowsOfCols]

theorem length_yPredList (g : List Row) : (yPredList g).length = g.length := by
  simp [yPredList, length_trendPredList, length_effectPredList]

theorem length_siteCoefs (s : String) (g : List Row) :
    (siteCoefs s g).length = (designCols g).length := by
  simp [siteCoefs, length_effectParams]

/-! ## String facts used for distinctness of design-column names -/

theorem str_data_append (a b : String) : (a ++ b).data = a.data ++ b.data := by
  cases a; cases b; rfl

theorem str_append_empty (a : String) : a ++ "" = a := by
  cases a
  exact String.ext (by simp [str_data_append])

theorem str_append_left_inj (p a b : String) (h : p ++ a = p ++ b) : a = b := by
  have hd := congrArg String.data h
  rw [str_data_append, str_data_append] at hd
  exact String.ext (List.append_cancel_left hd)

theorem str_ne_append_take (p1 p2 s1 s2 : String)
    (hle : p1.data.length ≤ p2.data.length)
    (h : p2.data.take p1.data.length ≠ p1.data) : p1 ++ s1 ≠ p2 ++ s2 := by
  intro he
  have hd := congrArg String.data he
  rw [str_data_append, str_data_append] at hd
  have h1 : (p1.data ++ s1.data).take p1.data.length = p1.data := List.take_left _ _
  have h2 : (p2.data ++ s2.data).take p1.data.length = p2.data.take p1.data.length :=
    List.take_append_of_le_length hle
  exact h ((h2.symm.trans (by rw [← hd])).trans h1)

theorem str_lit_ne_append (p1 p2 s2 : String)
    (hle : p1.data.length ≤ p2.data.length)
    (h : p2.data.take p1.data.length ≠ p1.data) : p1 ≠ p2 ++ s2 := by
  intro he
  exact str_ne_append_take p1 p2 "" s2 hle h ((str_append_empty p1).trans he)

/-! ## Distinctness of the design-matrix column names -/

theorem names_dummiesFor (g : List Row) (name : String) (f : Row → String) :
    (dummiesFor g name f).map (·.1) =
      (levelsOf g f).tail.map (fun lv => name ++ "_" ++ lv) := by
  rw [dummiesFor, List.map_map]
  rfl

theorem nodup_levelsOf (g : List Row) (f : Row → String) : (levelsOf g f).Nodup :=
  nodup_sortLe _ _ (nodup_dedupStr _)

theorem nodup_names_dummiesFor (g : List Row) (name : String) (f : Row → String) :
    ((dummiesFor g name f).map (·.1)).Nodup := by
  rw [names_dummiesFor]
  refine List.Nodup.map ?_ ((nodup_levelsOf g f).sublist (List.tail_sublist _))
  intro a b hab
  exact str_append_left_inj _ _ _ hab

theorem mem_names_dummiesFor (g : List Row) (name : String) (f : Row → String) (x : String)
    (hx : x ∈ (dummiesFor g name f).map (·.1)) : ∃ lv, x = name ++ "_" ++ lv := by
  rw [names_dummiesFor] at hx
  rcases List.mem_map.mp hx with ⟨lv, _, rfl⟩
  exact ⟨lv, rfl⟩

theorem names_getDummies (g : List Row) :
    (getDummies g).map (·.1) =
      ["SEM_FERIE", "SEM_PRE_FERIE", "SEM_POST_FERIE"]
        ++ (dummiesFor g "TYPE_SEM_ZONE" (·.TYPE_SEM_ZONE)).map (·.1)
        ++ (dummiesFor g "TYPE_SEM_FERIE" (·.TYPE_SEM_FERIE)).map (·.1)
        ++ (dummiesFor g "TYPE_SEM_PAYE_FCT" (·.TYPE_SEM_PAYE_FCT)).map (·.1) := by
  rw [getDummies]
  simp [List.map_append]

theorem mem_names_getDummies (g : List Row) (x : String)
    (hx : x ∈ (getDummies g).map (·.1)) :
    x = "SEM_FERIE" ∨ x = "SEM_PRE_FERIE" ∨ x = "SEM_POST_FERIE"
      ∨ (∃ lv, x = "TYPE_SEM_ZONE" ++ "_" ++ lv)
      ∨ (∃ lv, x = "TYPE_SEM_FERIE" ++ "_" ++ lv)
      ∨ (∃ lv, x = "TYPE_SEM_PAYE_FCT" ++ "_" ++ lv) := by
  rw [names_getDummies] at hx
  rcases List.mem_append.mp hx with hx | hD
  rotate_left
  · exact Or.inr (Or.inr (Or.inr (Or.inr (Or.inr (mem_names_dummiesFor g _ _ x hD)))))
  rcases List.mem_append.mp hx with hx | hC
  rotate_left
  · exact Or.inr (Or.inr (Or.inr (Or.inr (Or.inl (mem_names_dummiesFor g _ _ x hC)))))
  rcases List.mem_append.mp hx with hF | hB
  rotate_left
  · exact Or.inr (Or.inr (Or.inr (Or.inl (mem_names_dummiesFor g _ _ x hB))))
  simp only [List.mem_cons, List.not_mem_nil, or_false] at hF
  rcases hF with hF | hF | hF
  · exact Or.inl hF
  · exact Or.inr (Or.inl hF)
  · exact Or.inr (Or.inr (Or.inl hF))

theorem names_getDummies_nodup (g : List Row) : ((getDummies g).map (·.1)).Nodup := by
  rw [names_getDummies]
  have hB := nodup_names_dummiesFor g "TYPE_SEM_ZONE" (·.TYPE_SEM_ZONE)
  have hC := nodup_names_dummiesFor g "TYPE_SEM_FERIE" (·.TYPE_SEM_FERIE)
  have hD := nodup_names_dummiesFor g "TYPE_SEM_PAYE_FCT" (·.TYPE_SEM_PAYE_FCT)
  refine List.Nodup.append (List.Nodup.append (List.Nodup.append (by decide) hB ?_) hC ?_) hD ?_
  · intro x hxF hxB
    rcases mem_names_dummiesFor g _ _ x hxB with ⟨lv, rfl⟩
    simp only [List.mem_cons, List.not_mem_nil, or_false] at hxF
    rcases hxF with h | h | h
    · exact str_lit_ne_append "SEM_FERIE" ("TYPE_SEM_ZONE" ++ "_") lv
        (by decide) (by decide) h.symm
    · exact str_lit_ne_append "SEM_PRE_FERIE" ("TYPE_SEM_ZONE" ++ "_") lv
        (by decide) (by decide) h.symm
    · exact str_lit_ne_append "SEM_POST_FERIE" ("TYPE_SEM_ZONE" ++ "_") lv
        (by decide) (by decide) h.symm
  · intro x hx hxC
    rcases mem_names_dummiesFor g _ _ x hxC with ⟨lv, rfl⟩
    rcases List.mem_append.mp hx with hF | hBm
    · simp only [List.mem_cons, List.not_mem_nil, or_false] at hF
      rcases hF with h | h | h
      · exact str_lit_ne_append "SEM_FERIE" ("TYPE_SEM_FERIE" ++ "_") lv
          (by decide) (by decide) h.symm
      · exact str_lit_ne_append "SEM_PRE_FERIE" ("TYPE_SEM_FERIE" ++ "_") lv
          (by decide) (by decide) h.symm
      · exact str_lit_ne_append "SEM_POST_FERIE" ("TYPE_SEM_FERIE" ++ "_") lv
          (by decide) (by decide) h.symm
    · rcases mem_names_dummiesFor g _ _ _ hBm with ⟨lv2, h⟩
      exact str_ne_append_take ("TYPE_SEM_ZONE" ++ "_") ("TYPE_SEM_FERIE" ++ "_") lv2 lv
        (by decide) (by decide) h.symm
  · intro x hx hxD
    rcases mem_names_dummiesFor g _ _ x hxD with ⟨lv, rfl⟩
    rcases List.mem_append.mp hx with hx2 | hCm
    · rcases List.mem_append.mp hx2 with hF | hBm
      · simp only [List.mem_cons, List.not_mem_nil, or_false] at hF
        rcases hF with h | h | h
        · exact str_lit_ne_append "SEM_FERIE" ("TYPE_SEM_PAYE_FCT" ++ "_") lv
            (by decide) (by decide) h.symm
        · exact str_lit_ne_append "SEM_PRE_FERIE" ("TYPE_SEM_PAYE_FCT" ++ "_") lv
            (by decide) (by decide) h.symm
        · exact str_lit_ne_append "SEM_POST_FERIE" ("TYPE_SEM_PAYE_FCT" ++ "_") lv
            (by decide) (by decide) h.symm
      · rcases mem_names_dummiesFor g _ _ _ hBm with ⟨lv2, h⟩
        exact str_ne_append_take ("TYPE_SEM_ZONE" ++ "_") ("TYPE_SEM_PAYE_FCT" ++ "_") lv2 lv
          (by decide) (by decide) h.symm
    · rcases mem_names_dummiesFor g _ _ _ hCm with ⟨lv2, h⟩
      exact str_ne_append_take ("TYPE_SEM_FERIE" ++ "_") ("TYPE_SEM_PAYE_FCT" ++ "_") lv2 lv
        (by decide) (by decide) h.symm

theorem names_designCols_nodup (g : List Row) : ((designCols g).map (·.1)).Nodup := by
  rw [designCols, addConstant]
  by_cases h : hasConstCol (getDummies g) = true
  · rw [if_pos h]
    exact names_getDummies_nodup g
  · rw [if_neg h, List.map_cons]
    refine List.nodup_cons.mpr ⟨?_, names_getDummies_nodup g⟩
    intro hc
    have hc2 : "const" ∈ (getDummies g).map (·.1) := hc
    rcases mem_names_getDummies g _ hc2 with h1 | h1 | h1 | ⟨lv, h1⟩ | ⟨lv, h1⟩ | ⟨lv, h1⟩
    · exact absurd h1 (by decide)
    · exact absurd h1 (by decide)
    · exact absurd h1 (by decide)
    · exact str_lit_ne_append "const" ("TYPE_SEM_ZONE" ++ "_") lv (by decide) (by decide) h1
    · exact str_lit_ne_append "const" ("TYPE_SEM_FERIE" ++ "_") lv (by decide) (by decide) h1
    · exact str_lit_ne_append "const" ("TYPE_SEM_PAYE_FCT" ++ "_") lv (by decide) (by decide) h1

/-! ## Grouping and lookup lemmas -/

theorem nodup_siteList (df : List Row) : (siteList df).Nodup :=
  nodup_sortLe _ _ (nodup_dedupStr _)

theorem mem_siteList (df : List Row) (s : String) :
    s ∈ siteList df ↔ s ∈ df.map (·.site) := by
  rw [siteList, mem_sortLe, mem_dedupStr]

theorem find?_map_key {β : Type} (l : List String) (f : String → β) (key : β → String)
    (hf : ∀ x, key (f x) = x) (s : String) (hs : s ∈ l) :
    (l.map f).find? (fun m => key m == s) = some (f s) := by
  induction l with
  | nil => cases hs
  | cons a t ih =>
    by_cases has : a = s
    · subst has
      rw [List.map_cons, List.find?_cons_of_pos]
      simp [hf]
    · rw [List.map_cons, List.find?_cons_of_neg]
      · exact ih (by rcases List.mem_cons.mp hs with h | h; exact absurd h.symm has; exact h)
      · simp [hf, has]

theorem filter_flatMap_key {β : Type} (l : List String) (hl : l.Nodup)
    (f : String → List β) (key : β → String)
    (hf : ∀ x r, r ∈ f x → key r = x) (s : String) (hs : s ∈ l) :
    ((l.flatMap f).filter (fun r => key r == s)) = f s := by
  induction l with
  | nil => cases hs
  | cons a t ih =>
    rcases List.nodup_cons.mp hl with ⟨hat, ht⟩
    rw [List.flatMap_cons, List.filter_append]
    by_cases has : a = s
    · subst has
      have h1 : (f a).filter (fun r => key r == a) = f a :=
        List.filter_eq_self.mpr (fun r hr => by simp [hf a r hr])
      have h2 : ((t.flatMap f).filter (fun r => key r == a)) = [] := by
        refine List.filter_eq_nil_iff.mpr ?_
        intro r hr
        rcases List.mem_flatMap.mp hr with ⟨x, hx, hrx⟩
        simp only [hf x r hrx]
        intro hax
        exact hat ((show x = a by simpa using hax) ▸ hx)
      rw [h1, h2, List.append_nil]
    · have h1 : (f a).filter (fun r => key r == s) = [] := by
        refine List.filter_eq_nil_iff.mpr ?_
        intro r hr
        simp only [hf a r hr]
        simpa using has
      rw [h1, List.nil_append]
      exact ih ht (by rcases List.mem_cons.mp hs with h | h; exact absurd h.symm has; exact h)

theorem groupOf_site (df : List Row) (s : String) (r : Row) (hr : r ∈ groupOf df s) :
    r.site = s := by
  have := List.of_mem_filter hr
  simpa using this

theorem mem_sortedGroup_iff (df : List Row) (s : String) (r : Row) :
    r ∈ sortedGroup df s ↔ r ∈ df ∧ r.site = s := by
  rw [sortedGroup, sortSite, mem_sortLe, groupOf, List.mem_filter]
  simp

theorem sortedGroup_length_pos (df : List Row) (s : String) (hs : s ∈ siteList df) :
    0 < (sortedGroup df s).length := by
  rcases List.mem_map.mp ((mem_siteList df s).mp hs) with ⟨r, hr, hrs⟩
  have : r ∈ sortedGroup df s := (mem_sortedGroup_iff df s r).mpr ⟨hr, hrs⟩
  exact List.length_pos.mpr (fun h => by rw [h] at this; cases this)

theorem metricsFor_eq (df : List Row) (s : String) (hs : s ∈ siteList df) :
    metricsFor df s = some (siteMetrics s (sortedGroup df s)) :=
  find?_map_key (siteList df) (fun s => siteMetrics s (sortedGroup df s))
    (fun m => m.site) (fun _ => rfl) s hs

theorem siteCoefs_site (s : String) (g : List Row) (r : CoefRow) (hr : r ∈ siteCoefs s g) :
    r.site = s := by
  rcases List.mem_map.mp hr with ⟨p, _, rfl⟩
  rfl

theorem coefsFor_eq (df : List Row) (s : String) (hs : s ∈ siteList df) :
    coefsFor df s = siteCoefs s (sortedGroup df s) :=
  filter_flatMap_key (siteList df) (nodup_siteList df)
    (fun s => siteCoefs s (sortedGroup df s)) (fun r => r.site)
    (fun x r hr => siteCoefs_site x _ r hr) s hs

theorem siteCoefs_varName_mem (s : String) (g : List Row) (r : CoefRow)
    (hr : r ∈ siteCoefs s g) : r.varName ∈ (designCols g).map (·.1) := by
  rcases List.mem_map.mp hr with ⟨p, hp, rfl⟩
  exact (List.of_mem_zip hp).1

theorem siteCoefs_pairs_nodup (s : String) (g : List Row) :
    ((siteCoefs s g).map (fun r => (r.site, r.varName))).Nodup := by
  rw [siteCoefs, List.map_map]
  have hEq : ((fun r : CoefRow => (r.site, r.varName)) ∘
      (fun p : String × ℚ => ({ site := s, varName := p.1, coef := p.2 } : CoefRow)))
      = (fun v : String => (s, v)) ∘ Prod.fst := rfl
  rw [hEq, ← List.map_map]
  have hlen : ((designCols g).map (·.1)).length ≤ (effectParams g).length := by
    rw [length_effectParams, List.length_map]
  rw [List.map_fst_zip _ _ hlen]
  exact List.Nodup.map (fun a b hab => congrArg Prod.snd hab) (names_designCols_nodup g)

theorem flatMap_pairs_nodup_aux (df : List Row) (l : List String) (hl : l.Nodup) :
    ((l.flatMap fun s => siteCoefs s (sortedGroup df s)).map
      (fun r => (r.site, r.varName))).Nodup := by
  induction l with
  | nil => simp
  | cons a t ih =>
    rcases List.nodup_cons.mp hl with ⟨hat, ht⟩
    rw [List.flatMap_cons, List.map_append]
    refine List.Nodup.append (siteCoefs_pairs_nodup a _) (ih ht) ?_
    intro p hpa hpt
    rcases List.mem_map.mp hpa with ⟨r, hr, rfl⟩
    rcases List.mem_map.mp hpt with ⟨r2, hr2, hp2⟩
    rcases List.mem_flatMap.mp hr2 with ⟨x, hx, hrx⟩
    have h1 : r.site = a := siteCoefs_site a _ r hr
    have h2 : r2.site = x := siteCoefs_site x _ r2 hrx
    have h3 : r2.site = r.site := congrArg Prod.fst hp2
    have hxa : x = a := h2.symm.trans (h3.trans h1)
    exact hat (hxa ▸ hx)

theorem longTable_pairs_nodup (df : List Row) :
    ((longTable df).map (fun r => (r.site, r.varName))).Nodup :=
  flatMap_pairs_nodup_aux df (siteList df) (nodup_siteList df)

/-! ## Metric-level lemmas -/

theorem siteMetrics_eval_empty (s : String) (g : List Row)
    (h : ∀ r ∈ g, strStarts r.ID_SEM "2024-" = false) :
    (siteMetrics s g).r2_2024 = none ∧ (siteMetrics s g).mae_2024 = none ∧
      (siteMetrics s g).mape_2024 = none := by
  have hsel : ((g.zip (yPredList g)).filter (fun p => strStarts p.1.ID_SEM "2024-")) = [] :=
    List.filter_eq_nil_iff.mpr (fun p hp => by simp [h p.1 (List.of_mem_zip hp).1])
  refine ⟨?_, ?_, ?_⟩ <;>
    simp only [siteMetrics, hsel, List.map_nil, List.length_nil, gt_iff_lt,
      lt_irrefl, if_false]

theorem siteMetrics_mape_insample_some (s : String) (g : List Row) (hg : 0 < g.length) :
    (siteMetrics s g).mape_insample ≠ none := by
  simp only [siteMetrics, mean_absolute_percentage_error, List.length_map]
  rw [if_neg (by omega)]
  simp

theorem trend_plus_residual (g : List Row) (i : Nat) (hi : i < g.length) :
    (trendPredList g).getD i 0 + (yDet g).getD i 0 = (g.map (·.commandes)).getD i 0 := by
  have h1 : i < (trendPredList g).length := by rw [length_trendPredList]; exact hi
  have h2 : i < (g.map fun r => r.commandes).length := by rw [List.length_map]; exact hi
  have h3 : i < (yDet g).length := by rw [length_yDet]; exact hi
  rw [List.getD_eq_getElem _ _ h3, List.getD_eq_getElem _ _ h1, List.getD_eq_getElem _ _ h2]
  simp only [yDet, List.getElem_zipWith]
  ring

theorem r2_score_const (c : ℚ) (yt yp : List ℚ) (hlen : yt.length = yp.length)
    (h2 : 2 ≤ yt.length) (hc : ∀ x ∈ yt, x = c) :
    r2_score yt yp = some 1 ∨ r2_score yt yp = some 0 := by
  rw [r2_score, if_neg (by omega)]
  have hrep : yt = List.replicate yt.length c := List.eq_replicate_of_mem hc
  have hn : (yt.length : ℚ) ≠ 0 := by
    exact_mod_cast (by omega : yt.length ≠ 0)
  have hsum : yt.sum = (yt.length : ℚ) * c := by
    rw [hrep]
    simp [List.sum_replicate, List.length_replicate, nsmul_eq_mul]
  have hbar : yt.sum / (yt.length : ℚ) = c := by
    rw [hsum, mul_div_cancel_left₀ _ hn]
  have hTot : (yt.map (fun a => (a - yt.sum / (yt.length : ℚ)) ^ 2)).sum = 0 := by
    apply List.sum_eq_zero
    intro y hy
    rcases List.mem_map.mp hy with ⟨x, hx, rfl⟩
    rw [hbar, hc x hx, sub_self]
    ring
  rw [if_pos hTot]
  by_cases hres : (List.zipWith (fun a b => (a - b) ^ 2) yt yp).sum = 0
  · left; rw [if_pos hres]
  · right; rw [if_neg hres]

/-! ## Wide-table lemmas -/

theorem longTable_mem (df : List Row) (r : CoefRow) (hr : r ∈ longTable df) :
    r.site ∈ siteList df ∧ r.varName ∈ (designCols (sortedGroup df r.site)).map (·.1) := by
  rw [longTable] at hr
  rcases List.mem_flatMap.mp hr with ⟨x, hx, hrx⟩
  have hsite := siteCoefs_site x _ r hrx
  constructor
  · rw [hsite]; exact hx
  · rw [hsite]; exact siteCoefs_varName_mem x _ r hrx

theorem wideCell_none (df : List Row) (s v : String)
    (hv : v ∉ (designCols (sortedGroup df s)).map (·.1)) :
    wideCell (longTable df) s v = none := by
  have hnone : ∀ r ∈ longTable df, ¬((r.site == s && r.varName == v) = true) := by
    intro r hr hc
    rw [Bool.and_eq_true, beq_iff_eq, beq_iff_eq] at hc
    have h2 := (longTable_mem df r hr).2
    rw [hc.1, hc.2] at h2
    exact hv h2
  rw [wideCell, List.find?_eq_none.mpr hnone]
  rfl

theorem wideTable_ok (df : List Row) :
    wideTable df = Except.ok
      { cols := sortLe strLe (dedupStr ((longTable df).map (·.varName)))
        rows := (sortLe strLe (dedupStr ((longTable df).map (·.site)))).map (fun s =>
          (s, (sortLe strLe (dedupStr ((longTable df).map (·.varName)))).map
            (fun v => wideCell (longTable df) s v))) } := by
  rw [wideTable, pivotWide, if_pos (longTable_pairs_nodup df)]

theorem designCols_ne_nil (g : List Row) : designCols g ≠ [] := by
  rw [designCols, addConstant]
  by_cases h : hasConstCol (getDummies g) = true
  · rw [if_pos h, getDummies]
    simp
  · rw [if_neg h]
    simp

theorem mem_longTable_sites (df : List Row) (s : String) (hs : s ∈ siteList df) :
    s ∈ (longTable df).map (·.site) := by
  have hlen : 0 < (siteCoefs s (sortedGroup df s)).length := by
    rw [length_siteCoefs]
    exact List.length_pos.mpr (designCols_ne_nil _)
  rcases List.exists_mem_of_length_pos hlen with ⟨r, hr⟩
  exact List.mem_map.mpr ⟨r, List.mem_flatMap.mpr ⟨s, hs, hr⟩, siteCoefs_site s _ r hr⟩

/-! ## The claims -/

set_option maxRecDepth 4000 in
/-- Claim C1, counterexample.  The claim asserts that for a site with at most
as many observations as design-matrix columns the unidentifiable effect
coefficients are reported as missing-value markers and that these markers
propagate through the predictions and metrics of that site.  On dfC1 the site
S has 2 observations against 4 design columns, yet every coefficient in the
long table is the finite rational 0 (the minimum-norm pseudoinverse solution
statsmodels computes), and the in-sample metrics are the finite values 1, 0
and 0: no missing-value marker appears anywhere (the three none fields are
the 2024 subset metrics of a dataset with no 2024 rows, produced by the
explicit empty-subset branch, not by rank deficiency). -/
theorem C1_counterexample :
    (sortedGroup dfC1 "S").length ≤ (designCols (sortedGroup dfC1 "S")).length
    ∧ longTable dfC1 = [⟨"S", "const", 0⟩, ⟨"S", "SEM_FERIE", 0⟩,
        ⟨"S", "SEM_PRE_FERIE", 0⟩, ⟨"S", "SEM_POST_FERIE", 0⟩]
    ∧ metricsFor dfC1 "S" = some ⟨"S", some 1, some 0, some 0, none, none, none⟩ := by
  with_unfolding_all decide

/-- Claim C1, amended.  For every site whose observations number at most the
design-matrix columns, the effect regression still returns one finite
rational coefficient per column (the pseudoinverse least-squares solution):
the run does not fail, the metrics row of that site is produced, and the
long table carries exactly one coefficient row per design column for it. -/
theorem C1_rank_deficient_fit_finite (df : List Row) (s : String)
    (hs : s ∈ siteList df)
    (hnk : (sortedGroup df s).length ≤ (designCols (sortedGroup df s)).length) :
    metricsFor df s = some (siteMetrics s (sortedGroup df s))
    ∧ coefsFor df s = siteCoefs s (sortedGroup df s)
    ∧ (coefsFor df s).length = (designCols (sortedGroup df s)).length := by
  refine ⟨metricsFor_eq df s hs, coefsFor_eq df s hs, ?_⟩
  rw [coefsFor_eq df s hs, length_siteCoefs]

set_option maxRecDepth 4000 in
/-- Witness for the amended claim C1 at the concrete rank-deficient input. -/
theorem C1_rank_deficient_fit_finite_witness :
    metricsFor dfC1 "S" = some (siteMetrics "S" (sortedGroup dfC1 "S"))
    ∧ coefsFor dfC1 "S" = siteCoefs "S" (sortedGroup dfC1 "S")
    ∧ (coefsFor dfC1 "S").length = (designCols (sortedGroup dfC1 "S")).length :=
  C1_rank_deficient_fit_finite dfC1 "S" (by decide) (by with_unfolding_all decide)

set_option maxRecDepth 4000 in
/-- Claim C2, counterexample.  The claim asserts that the design matrix
always has an intercept column prepended whose entries are all one.  On dfC2
the flag column SEM_PRE_FERIE is constant one over the history of site S, so
add_constant with its default has_constant equal to skip returns the matrix
unchanged: no column named const exists and the first column is the
SEM_FERIE column with values 0 and 1, not a column of ones. -/
theorem C2_counterexample :
    designCols (sortedGroup dfC2 "S") =
      [("SEM_FERIE", [0, 1]), ("SEM_PRE_FERIE", [1, 1]), ("SEM_POST_FERIE", [0, 0])]
    ∧ "const" ∉ (designCols (sortedGroup dfC2 "S")).map (·.1)
    ∧ ¬ ((designCols (sortedGroup dfC2 "S")).map (·.2)).head? =
        some (List.replicate 2 (1 : ℚ)) := by
  with_unfolding_all decide

/-- Claim C2, amended.  The intercept column of ones named const is prepended
to the dummy matrix exactly when no existing column is constant with a
nonzero value; when some column is constant and nonzero the matrix is
returned unchanged, without an intercept. -/
theorem C2_intercept_unless_constant_column (g : List Row)
    (h : hasConstCol (getDummies g) = false) :
    designCols g = ("const", List.replicate g.length 1) :: getDummies g := by
  rw [designCols, addConstant, h]
  simp

set_option maxRecDepth 4000 in
/-- Witness for the amended claim C2 at a concrete input with no constant
nonzero dummy column. -/
theorem C2_intercept_unless_constant_column_witness :
    designCols dfC1 = ("const", List.replicate dfC1.length 1) :: getDummies dfC1 :=
  C2_intercept_unless_constant_column dfC1 (by with_unfolding_all decide)

set_option maxRecDepth 4000 in
/-- Claim C3, counterexample.  The claim asserts that a site whose true
values have zero variance gets a not-a-number R squared.  On dfC3 the demand
series of site S is constantly 5, the fit is exact, and sklearn r2_score
with its default force_finite replaces the undefined score by the finite
value 1 (it would be 0 for an imperfect fit), not by not-a-number. -/
theorem C3_counterexample :
    (∀ r ∈ sortedGroup dfC3 "S", r.commandes = 5)
    ∧ 2 ≤ (sortedGroup dfC3 "S").length
    ∧ metricsFor dfC3 "S" = some ⟨"S", some 1, some 0, some 0, none, none, none⟩ := by
  with_unfolding_all decide

/-- Claim C3, amended.  For a site with at least two rows whose true values
are all equal (zero variance), the in-sample R squared is reported as the
finite value 1 when the residuals vanish and 0 otherwise, never as
not-a-number; not-a-number would arise only for a subset of fewer than two
samples. -/
theorem C3_r2_constant_series_forced_finite (df : List Row) (s : String) (c : ℚ)
    (hs : s ∈ siteList df) (h2 : 2 ≤ (sortedGroup df s).length)
    (hc : ∀ r ∈ sortedGroup df s, r.commandes = c) :
    ∃ m, metricsFor df s = some m
      ∧ (m.r2_insample = some 1 ∨ m.r2_insample = some 0) := by
  refine ⟨_, metricsFor_eq df s hs, ?_⟩
  have hlen : ((sortedGroup df s).map (·.commandes)).length
      = (yPredList (sortedGroup df s)).length := by
    rw [List.length_map, length_yPredList]
  have h2m : 2 ≤ ((sortedGroup df s).map (·.commandes)).length := by
    rw [List.length_map]; exact h2
  have hcm : ∀ x ∈ (sortedGroup df s).map (·.commandes), x = c := by
    intro x hx
    rcases List.mem_map.mp hx with ⟨r, hr, rfl⟩
    exact hc r hr
  have hfield : (siteMetrics s (sortedGroup df s)).r2_insample
      = r2_score ((sortedGroup df s).map (·.commandes)) (yPredList (sortedGroup df s)) := rfl
  rw [hfield]
  exact r2_score_const c _ _ hlen h2m hcm

set_option maxRecDepth 4000 in
/-- Witness for the amended claim C3 at the constant-series input. -/
theorem C3_r2_constant_series_forced_finite_witness :
    ∃ m, metricsFor dfC3 "S" = some m
      ∧ (m.r2_insample = some 1 ∨ m.r2_insample = some 0) :=
  C3_r2_constant_series_forced_finite dfC3 "S" 5 (by decide) (by decide)
    (by with_unfolding_all decide)

set_option maxRecDepth 4000 in
/-- Claim C4, counterexample.  The claim asserts that on a subset containing
a true value of zero the mean absolute percentage error follows one of two
policies, skipping zero-denominator rows or reporting not-a-number for the
whole metric.  On dfC4 the true values are 0, 3, 0 and the prediction is
constantly 1; sklearn clips each zero denominator to the machine epsilon
2 to the power minus 52 and returns the finite value
(2 to the 53 plus 2 thirds) divided by 3.  The skip policy would give 2
thirds and the not-a-number policy would give none, so the code follows
neither claimed policy (it also raises no error, producing a value). -/
theorem C4_counterexample :
    (sortedGroup dfC4 "S").map (·.commandes) = [0, 3, 0]
    ∧ (metricsFor dfC4 "S").map (·.mape_insample)
        = some (some ((9007199254740992 + 2 / 3) / 3))
    ∧ ((9007199254740992 + 2 / 3) / 3 : ℚ) ≠ 2 / 3 := by
  refine ⟨rfl, ?_, by norm_num⟩
  rw [metricsFor_eq dfC4 "S" (by decide)]
  have hg : sortedGroup dfC4 "S" = dfC4 := rfl
  rw [hg, Option.map_some']
  have hfield : (siteMetrics "S" dfC4).mape_insample
      = mean_absolute_percentage_error (dfC4.map (·.commandes)) (yPredList dfC4) := rfl
  rw [hfield]
  have hyp : yPredList dfC4 = [1, 1, 1] := by with_unfolding_all decide
  have hmap : dfC4.map (·.commandes) = [0, 3, 0] := rfl
  rw [hyp, hmap]
  simp only [mean_absolute_percentage_error, npEps]
  norm_num [max_def, abs]

/-- Claim C4, amended.  Computing the mean absolute percentage error never
raises for any site: the full-history MAPE of every site is a defined
(non-NaN) value, zero true values being handled by clipping the denominator
at the machine epsilon rather than by skipping rows or reporting
not-a-number. -/
theorem C4_mape_total_no_error (df : List Row) (s : String) (hs : s ∈ siteList df) :
    ∃ m, metricsFor df s = some m ∧ m.mape_insample ≠ none :=
  ⟨_, metricsFor_eq df s hs,
    siteMetrics_mape_insample_some s _ (sortedGroup_length_pos df s hs)⟩

/-- Witness for the amended claim C4 at the zero-true-value input. -/
theorem C4_mape_total_no_error_witness :
    ∃ m, metricsFor dfC4 "S" = some m ∧ m.mape_insample ≠ none :=
  C4_mape_total_no_error dfC4 "S" (by decide)

/-- Claim C5.  Building the wide coefficient table fails with the surfaced
duplicate-entries error exactly when some site and variable pair occurs more
than once in the long table; and for every input dataset the long table the
pipeline builds has pairwise distinct site and variable pairs (each site has
one uniquely named row per design column), so the pivot of the pipeline
always succeeds. -/
theorem C5_pivot_fails_iff_duplicates :
    (∀ L : List CoefRow,
      (∃ e, pivotWide L = Except.error e) ↔
        ¬ (L.map (fun r => (r.site, r.varName))).Nodup)
    ∧ ∀ df : List Row, ((longTable df).map (fun r => (r.site, r.varName))).Nodup
        ∧ ∃ w, wideTable df = Except.ok w := by
  constructor
  · intro L
    constructor
    · rintro ⟨e, he⟩ hnodup
      rw [pivotWide, if_pos hnodup] at he
      exact Except.noConfusion he
    · intro h
      refine ⟨"Index contains duplicate entries, cannot reshape", ?_⟩
      rw [pivotWide, if_neg h]
  · intro df
    exact ⟨longTable_pairs_nodup df, ⟨_, wideTable_ok df⟩⟩

/-- Claim C6.  When the evaluation-year subset of a site is empty, its three
2024 metrics are reported as none (the not-a-number marker) on a metrics row
that is still present, and every other site still gets the metrics row
computed from its own rows alone. -/
theorem C6_empty_eval_subset_nan (df : List Row) (s : String) (hs : s ∈ siteList df)
    (hempty : ∀ r ∈ sortedGroup df s, strStarts r.ID_SEM "2024-" = false) :
    (∃ m, metricsFor df s = some m
      ∧ m.r2_2024 = none ∧ m.mae_2024 = none ∧ m.mape_2024 = none)
    ∧ ∀ s2 ∈ siteList df, metricsFor df s2 = some (siteMetrics s2 (sortedGroup df s2)) := by
  have h := siteMetrics_eval_empty s (sortedGroup df s) hempty
  exact ⟨⟨_, metricsFor_eq df s hs, h.1, h.2.1, h.2.2⟩,
    fun s2 hs2 => metricsFor_eq df s2 hs2⟩

/-- Witness for claim C6: dfC1 has no 2024 labels at all. -/
theorem C6_empty_eval_subset_nan_witness :
    (∃ m, metricsFor dfC1 "S" = some m
      ∧ m.r2_2024 = none ∧ m.mae_2024 = none ∧ m.mape_2024 = none)
    ∧ ∀ s2 ∈ siteList dfC1, metricsFor dfC1 s2
        = some (siteMetrics s2 (sortedGroup dfC1 s2)) :=
  C6_empty_eval_subset_nan dfC1 "S" (by decide) (by decide)

/-- Claim C7.  The metrics row and the coefficient rows of a site depend only
on the rows of that site: two datasets that agree on the rows of the site
(same rows, same order) yield the same metrics row and the same coefficient
rows for it, however the other sites differ. -/
theorem C7_site_independence (df1 df2 : List Row) (s : String)
    (hgroups : groupOf df1 s = groupOf df2 s)
    (hs1 : s ∈ siteList df1) (hs2 : s ∈ siteList df2) :
    metricsFor df1 s = metricsFor df2 s ∧ coefsFor df1 s = coefsFor df2 s := by
  have e : sortedGroup df1 s = sortedGroup df2 s := by
    rw [sortedGroup, sortedGroup, hgroups]
  constructor
  · rw [metricsFor_eq df1 s hs1, metricsFor_eq df2 s hs2, e]
  · rw [coefsFor_eq df1 s hs1, coefsFor_eq df2 s hs2, e]

/-- Witness for claim C7: dfC7 extends dfC1 by a second site but agrees with
it on the rows of site S. -/
theorem C7_site_independence_witness :
    metricsFor dfC1 "S" = metricsFor dfC7 "S"
    ∧ coefsFor dfC1 "S" = coefsFor dfC7 "S" :=
  C7_site_independence dfC1 dfC7 "S" (by decide) (by decide) (by decide)

/-- Claim C8.  After sorting, the ordinal time index column of a site is
exactly the contiguous sequence from 0 to n-1 (np.arange of the group
length, with no gaps whatever labels are missing), the week labels of the
sorted group ascend, and a single-row series gets the index list holding 0
alone. -/
theorem C8_time_index_contiguous (df : List Row) (s : String) (hs : s ∈ siteList df) :
    tColumn (sortedGroup df s) = List.range (sortedGroup df s).length
    ∧ List.Pairwise (fun a b : Row => strLe a.ID_SEM b.ID_SEM = true) (sortedGroup df s)
    ∧ ((sortedGroup df s).length = 1 → tColumn (sortedGroup df s) = [0]) := by
  refine ⟨rfl, ?_, ?_⟩
  · exact pairwise_sortLe rowLe rowLe_total rowLe_trans (groupOf df s)
  · intro h1
    rw [tColumn, h1]
    rfl

/-- Witness for claim C8 at a concrete two-row site. -/
theorem C8_time_index_contiguous_witness :
    tColumn (sortedGroup dfC1 "S") = List.range (sortedGroup dfC1 "S").length
    ∧ List.Pairwise (fun a b : Row => strLe a.ID_SEM b.ID_SEM = true) (sortedGroup dfC1 "S")
    ∧ ((sortedGroup dfC1 "S").length = 1 → tColumn (sortedGroup dfC1 "S") = [0]) :=
  C8_time_index_contiguous dfC1 "S" (by decide)

/-- Claim C9.  For every row of every site, the trend prediction at the time
index of the row plus the detrended residual of the row reconstructs the
observed demand exactly (the model is over exact rationals, so equality
within floating-point tolerance strengthens to equality). -/
theorem C9_trend_detrend_round_trip (df : List Row) (s : String) (hs : s ∈ siteList df)
    (i : Nat) (hi : i < (sortedGroup df s).length) :
    (trendPredList (sortedGroup df s)).getD i 0 + (yDet (sortedGroup df s)).getD i 0
      = ((sortedGroup df s).map (·.commandes)).getD i 0 :=
  trend_plus_residual (sortedGroup df s) i hi

/-- Witness for claim C9 at the first row of a concrete site. -/
theorem C9_trend_detrend_round_trip_witness :
    (trendPredList (sortedGroup dfC1 "S")).getD 0 0
        + (yDet (sortedGroup dfC1 "S")).getD 0 0
      = ((sortedGroup dfC1 "S").map (·.commandes)).getD 0 0 :=
  C9_trend_detrend_round_trip dfC1 "S" (by decide) 0 (by decide)

/-- Claim C10.  The wide table has one column per variable name occurring in
the long table; for a site whose own design matrix lacks one of those
variables, the wide table still has the row of that site and its cell under
that variable is the missing-value marker none, not zero and not an error
(the pivot succeeds). -/
theorem C10_wide_missing_cell_nan (df : List Row) (s v : String)
    (hs : s ∈ siteList df)
    (hv : v ∈ (longTable df).map (·.varName))
    (hnot : v ∉ (designCols (sortedGroup df s)).map (·.1)) :
    ∃ w, wideTable df = Except.ok w ∧ v ∈ w.cols
      ∧ (s, w.cols.map (fun c => wideCell (longTable df) s c)) ∈ w.rows
      ∧ wideCell (longTable df) s v = none := by
  refine ⟨_, wideTable_ok df, ?_, ?_, wideCell_none df s v hnot⟩
  · exact (mem_sortLe _ _ _).mpr ((mem_dedupStr _ _).mpr hv)
  · exact List.mem_map.mpr ⟨s,
      (mem_sortLe _ _ _).mpr ((mem_dedupStr _ _).mpr (mem_longTable_sites df s hs)), rfl⟩

set_option maxRecDepth 4000 in
/-- Witness for claim C10: in dfC10 the site B lacks the dummy variable
TYPE_SEM_FERIE_X that site A contributes to the union of columns. -/
theorem C10_wide_missing_cell_nan_witness :
    ∃ w, wideTable dfC10 = Except.ok w ∧ "TYPE_SEM_FERIE_X" ∈ w.cols
      ∧ ("B", w.cols.map (fun c => wideCell (longTable dfC10) "B" c)) ∈ w.rows
      ∧ wideCell (longTable dfC10) "B" "TYPE_SEM_FERIE_X" = none :=
  C10_wide_missing_cell_nan dfC10 "B" "TYPE_SEM_FERIE_X" (by decide)
    (by with_unfolding_all decide) (by with_unfolding_all decide)
